import Mathlib

/-!
Verification of the DOS plotting script (src/DOS/plot_dos.py).

The script is embedded shallowly:

* Python strings are Lean `String`s; the code-point-wise lexicographic
  string comparison is re-implemented structurally (`lexLe` / `pyStrLe`) so
  that it evaluates inside the kernel (the core `String` order does not).
* The Python method `str.replace` with empty replacement (delete every non-overlapping occurrence,
  scanning left to right) is re-implemented structurally (`replaceAll`).
* Floats are modelled as rationals (`ℚ`); the only arithmetic the script
  performs is subtraction, multiplication by 1.25, `abs`, `max` and
  comparisons, all exact on `ℚ`.
* The input `dos_data` dict is an association list from string keys to
  values that are either a scalar or a sequence (`DosValue`).
* `plot_vasp_dos` returns `Except String RenderResult`: uncaught Python
  faults (missing keys, scalar values where a sequence is indexed/plotted)
  become `Except.error`, and the observable outputs of the chart (plotted
  energies, Fermi-line position, spin flag, plotted label order, per-label
  plotted series, y-axis limits) are collected in `RenderResult`.
-/

/-- True for an ASCII capital letter, the character class `[A-Z]` of the
regex in `get_element`. -/
def charUpper (c : Char) : Bool := decide ('A' ≤ c) && decide (c ≤ 'Z')

/-- True for an ASCII small letter, the character class `[a-z]` of the
regex in `get_element`. -/
def charLower (c : Char) : Bool := decide ('a' ≤ c) && decide (c ≤ 'z')

/-- Code-point lexicographic `<=` of Python on character lists. -/
def lexLe : List Char → List Char → Bool
  | [], _ => true
  | _ :: _, [] => false
  | a :: as, b :: bs => if a = b then lexLe as bs else decide (a < b)

/-- String `<=` of Python (used by `sorted`), on `String`. -/
def pyStrLe (a b : String) : Bool := lexLe a.data b.data

/-- Does `pat` occur at the head of the second list? -/
def isPrefixAt : List Char → List Char → Bool
  | [], _ => true
  | _ :: _, [] => false
  | p :: ps, c :: cs => p = c && isPrefixAt ps cs

/-- Fueled worker for `replaceAll`; the fuel starts at the length of the
string, which only shrinks, so the fuel never runs out. -/
def replaceAllGo (pat : List Char) : Nat → List Char → List Char
  | _, [] => []
  | 0, rest => rest
  | fuel + 1, c :: cs =>
    if isPrefixAt pat (c :: cs) then replaceAllGo pat fuel (List.drop (pat.length - 1) cs)
    else c :: replaceAllGo pat fuel cs

/-- The Python replace-by-empty for a non-empty `pat`: delete every
non-overlapping occurrence, scanning left to right. -/
def replaceAll (pat : List Char) (s : List Char) : List Char := replaceAllGo pat s.length s

/-- `get_element` of the script: the regex `([A-Z][a-z]?)` anchored at the
start of the label; the match (one capital, optionally followed by one
small letter) if it exists, else the label itself. -/
def get_element (label : String) : String :=
  match label.data with
  | [] => label
  | c :: rest =>
    if charUpper c then
      match rest with
      | c2 :: _ => if charLower c2 then String.mk [c, c2] else String.mk [c]
      | [] => String.mk [c]
    else label

/-- The fixed `NON_METALS` set of the script. -/
def NON_METALS : List String :=
  ["H", "He", "B", "C", "N", "O", "F", "Ne", "Si", "P", "S", "Cl", "Ar", "Se", "Br"]

/-- Does the string start with an ASCII capital?  This is
`re.match(r"[A-Z][a-z]?", s)` viewed as a boolean. -/
def startsUpper (s : String) : Bool :=
  match s.data with
  | [] => false
  | c :: _ => charUpper c

/-- The `elem in NON_METALS` test of the `auto` branch. -/
def isNonMetalLabel (l : String) : Bool := NON_METALS.contains (get_element l)

/-- The `elif re.match(r"[A-Z][a-z]?", elem)` test of the `auto` branch
(reached only when the non-metal test failed). -/
def isMetalLabel (l : String) : Bool := !isNonMetalLabel l && startsUpper (get_element l)

/-- The final `else` of the `auto` branch. -/
def isOtherLabel (l : String) : Bool := !isNonMetalLabel l && !startsUpper (get_element l)

/-- Stable insertion used by `sortBy`. -/
def insertSorted (le : α → α → Bool) (x : α) : List α → List α
  | [] => [x]
  | y :: ys => if le x y then x :: y :: ys else y :: insertSorted le x ys

/-- Stable insertion sort; for a total preorder this returns the same list
as the (stable) built-in `sorted` of Python. -/
def sortBy (le : α → α → Bool) : List α → List α
  | [] => []
  | x :: xs => insertSorted le x (sortBy le xs)

/-- Index of the last occurrence of `k` in the list: the dict
comprehension building `priority_map` keeps the last index for a
duplicated entry. -/
def lastIdx : List String → String → Option Nat
  | [], _ => none
  | x :: xs, k =>
    match lastIdx xs k with
    | some i => some (i + 1)
    | none => if x = k then some 0 else none

/-- The rank `priority_map.get(get_element(lbl), priority_map.get(lbl, 999))`
computed by `manual_key` in the script. -/
def rankOf (mo : List String) (lbl : String) : Nat :=
  match lastIdx mo (get_element lbl) with
  | some i => i
  | none =>
    match lastIdx mo lbl with
    | some i => i
    | none => 999

/-- Comparison of the tuples `(rank, label)` produced by `manual_key`. -/
def manualLe (mo : List String) (a b : String) : Bool :=
  if rankOf mo a = rankOf mo b then pyStrLe a b else decide (rankOf mo a < rankOf mo b)

/-- Python truthiness of the `manual_order` argument (`None` and the empty
list are falsy). -/
def moTruthy : Option (List String) → Bool
  | some (_ :: _) => true
  | _ => false

/-- `get_sorted_labels` of the script. -/
def get_sorted_labels (labels : List String) (mode : String)
    (manual_order : Option (List String)) : List String :=
  if mode = "manual" ∧ moTruthy manual_order = true then
    sortBy (manualLe (manual_order.getD [])) labels
  else
    sortBy pyStrLe (labels.filter isMetalLabel) ++
      sortBy pyStrLe (labels.filter isNonMetalLabel) ++
        sortBy pyStrLe (labels.filter isOtherLabel)

/-! ### Order-theoretic facts about the comparators -/

theorem lexLe_total : ∀ as bs : List Char, lexLe as bs = true ∨ lexLe bs as = true := by
  intro as
  induction as with
  | nil => intro bs; left; rfl
  | cons a as ih =>
    intro bs
    cases bs with
    | nil => right; rfl
    | cons b bs =>
      by_cases h : a = b
      · subst h
        simpa [lexLe] using ih bs
      · rcases lt_trichotomy a b with hlt | heq | hgt
        · left; simp [lexLe, h, hlt]
        · exact absurd heq h
        · right
          have hba : ¬b = a := fun hba => h hba.symm
          simp [lexLe, hba, hgt]

theorem lexLe_trans :
    ∀ as bs cs : List Char, lexLe as bs = true → lexLe bs cs = true → lexLe as cs = true := by
  intro as
  induction as with
  | nil => intro bs cs _ _; rfl
  | cons a as ih =>
    intro bs cs h1 h2
    cases bs with
    | nil => simp [lexLe] at h1
    | cons b bs =>
      cases cs with
      | nil => simp [lexLe] at h2
      | cons c cs =>
        by_cases hab : a = b <;> by_cases hbc : b = c
        · subst hab; subst hbc
          simp only [lexLe, if_pos rfl] at h1 h2 ⊢
          exact ih bs cs h1 h2
        · subst hab
          simp [lexLe, hbc] at h2 ⊢
          exact h2
        · subst hbc
          simp [lexLe, hab] at h1 ⊢
          exact h1
        · simp [lexLe, hab, hbc] at h1 h2
          have hac : a < c := lt_trans h1 h2
          simp [lexLe, ne_of_lt hac, hac]

theorem pyStrLe_total (a b : String) : pyStrLe a b = true ∨ pyStrLe b a = true :=
  lexLe_total a.data b.data

theorem pyStrLe_trans {a b c : String} (h1 : pyStrLe a b = true) (h2 : pyStrLe b c = true) :
    pyStrLe a c = true :=
  lexLe_trans a.data b.data c.data h1 h2

theorem manualLe_iff (mo : List String) (a b : String) :
    manualLe mo a b = true ↔
      (rankOf mo a < rankOf mo b ∨ (rankOf mo a = rankOf mo b ∧ pyStrLe a b = true)) := by
  by_cases h : rankOf mo a = rankOf mo b
  · simp [manualLe, h]
  · simp [manualLe, h]

theorem manualLe_total (mo : List String) (a b : String) :
    manualLe mo a b = true ∨ manualLe mo b a = true := by
  rcases Nat.lt_trichotomy (rankOf mo a) (rankOf mo b) with hlt | heq | hgt
  · left; exact (manualLe_iff mo a b).mpr (Or.inl hlt)
  · rcases pyStrLe_total a b with hab | hba
    · left; exact (manualLe_iff mo a b).mpr (Or.inr ⟨heq, hab⟩)
    · right; exact (manualLe_iff mo b a).mpr (Or.inr ⟨heq.symm, hba⟩)
  · right; exact (manualLe_iff mo b a).mpr (Or.inl hgt)

theorem manualLe_trans (mo : List String) {a b c : String}
    (h1 : manualLe mo a b = true) (h2 : manualLe mo b c = true) : manualLe mo a c = true := by
  rcases (manualLe_iff mo a b).mp h1 with hlt | ⟨heq, hs⟩ <;>
    rcases (manualLe_iff mo b c).mp h2 with hlt2 | ⟨heq2, hs2⟩
  · exact (manualLe_iff mo a c).mpr (Or.inl (lt_trans hlt hlt2))
  · exact (manualLe_iff mo a c).mpr (Or.inl (heq2 ▸ hlt))
  · exact (manualLe_iff mo a c).mpr (Or.inl (heq ▸ hlt2))
  · exact (manualLe_iff mo a c).mpr (Or.inr ⟨heq.trans heq2, pyStrLe_trans hs hs2⟩)

/-! ### Sorting lemmas -/

theorem insertSorted_perm (le : α → α → Bool) (x : α) (l : List α) :
    List.Perm (insertSorted le x l) (x :: l) := by
  induction l with
  | nil => exact List.Perm.refl _
  | cons y ys ih =>
    unfold insertSorted
    by_cases h : le x y = true
    · rw [if_pos h]
    · rw [if_neg h]
      exact (ih.cons y).trans (List.Perm.swap x y ys)

theorem sortBy_perm (le : α → α → Bool) (l : List α) : List.Perm (sortBy le l) l := by
  induction l with
  | nil => exact List.Perm.refl _
  | cons x xs ih => exact (insertSorted_perm le x (sortBy le xs)).trans (ih.cons x)

theorem insertSorted_pairwise {le : α → α → Bool}
    (htot : ∀ a b, le a b = true ∨ le b a = true)
    (htrans : ∀ a b c, le a b = true → le b c = true → le a c = true)
    (x : α) (l : List α) (h : l.Pairwise (fun a b => le a b = true)) :
    (insertSorted le x l).Pairwise (fun a b => le a b = true) := by
  induction l with
  | nil => simp [insertSorted]
  | cons y ys ih =>
    rcases List.pairwise_cons.mp h with ⟨hy, hys⟩
    unfold insertSorted
    by_cases hxy : le x y = true
    · rw [if_pos hxy]
      refine List.pairwise_cons.mpr ⟨?_, h⟩
      intro z hz
      rcases List.mem_cons.mp hz with rfl | hz
      · exact hxy
      · exact htrans x y z hxy (hy z hz)
    · rw [if_neg hxy]
      refine List.pairwise_cons.mpr ⟨?_, ih hys⟩
      intro z hz
      have hz2 : z ∈ x :: ys := (insertSorted_perm le x ys).mem_iff.mp hz
      rcases List.mem_cons.mp hz2 with rfl | hz2
      · rcases htot z y with h1 | h2
        · exact absurd h1 hxy
        · exact h2
      · exact hy z hz2

theorem sortBy_pairwise {le : α → α → Bool}
    (htot : ∀ a b, le a b = true ∨ le b a = true)
    (htrans : ∀ a b c, le a b = true → le b c = true → le a c = true)
    (l : List α) : (sortBy le l).Pairwise (fun a b => le a b = true) := by
  induction l with
  | nil => simp [sortBy]
  | cons x xs ih => exact insertSorted_pairwise htot htrans x (sortBy le xs) ih

theorem lastIdx_lt_length : ∀ (l : List String) (k : String) (i : Nat),
    lastIdx l k = some i → i < l.length := by
  intro l
  induction l with
  | nil => intro k i h; simp [lastIdx] at h
  | cons x xs ih =>
    intro k i h
    unfold lastIdx at h
    cases hx : lastIdx xs k with
    | some j =>
      rw [hx] at h
      cases h
      exact Nat.succ_lt_succ (ih k j hx)
    | none =>
      rw [hx] at h
      by_cases hk : x = k
      · simp [hk] at h
        cases h
        exact Nat.succ_pos _
      · simp [hk] at h

theorem filter3_perm (l : List String) :
    List.Perm
      (l.filter isMetalLabel ++ l.filter isNonMetalLabel ++ l.filter isOtherLabel) l := by
  induction l with
  | nil => simp
  | cons x l ih =>
    cases hB1 : isNonMetalLabel x with
    | true =>
      have hm : isMetalLabel x = false := by simp [isMetalLabel, hB1]
      have ho : isOtherLabel x = false := by simp [isOtherLabel, hB1]
      simp only [List.filter_cons, hB1, hm, ho, Bool.false_eq_true, ite_true, ite_false,
        if_true, if_false, List.cons_append, List.append_assoc]
      refine List.perm_middle.trans (List.Perm.cons x ?_)
      simpa [List.append_assoc] using ih
    | false =>
      cases hB2 : startsUpper (get_element x) with
      | true =>
        have hm : isMetalLabel x = true := by simp [isMetalLabel, hB1, hB2]
        have ho : isOtherLabel x = false := by simp [isOtherLabel, hB2]
        simp only [List.filter_cons, hB1, hm, ho, Bool.false_eq_true, ite_true, ite_false,
          if_true, if_false, List.cons_append, List.append_assoc]
        refine List.Perm.cons x ?_
        simpa [List.append_assoc] using ih
      | false =>
        have hm : isMetalLabel x = false := by simp [isMetalLabel, hB1, hB2]
        have ho : isOtherLabel x = true := by simp [isOtherLabel, hB1, hB2]
        simp only [List.filter_cons, hB1, hm, ho, Bool.false_eq_true, ite_true, ite_false,
          if_true, if_false, List.cons_append, List.append_assoc]
        refine ((List.Perm.append_left _ List.perm_middle).trans List.perm_middle).trans ?_
        refine List.Perm.cons x ?_
        simpa [List.append_assoc] using ih

theorem gsl_perm (labels : List String) (mode : String) (mo : Option (List String)) :
    List.Perm (get_sorted_labels labels mode mo) labels := by
  unfold get_sorted_labels
  split
  · exact sortBy_perm _ labels
  · exact (List.Perm.append (List.Perm.append (sortBy_perm _ _) (sortBy_perm _ _))
      (sortBy_perm _ _)).trans (filter3_perm labels)

/-! ### The DOS data model and the renderer -/

/-- A value stored in the `dos_data` dict: a scalar or a numeric sequence. -/
inductive DosValue where
  | scalar : ℚ → DosValue
  | seq : List ℚ → DosValue
deriving DecidableEq

/-- The `dos_data` dict, as an association list with distinct keys (lookup
takes the first match, like a dict). -/
abbrev DosData := List (String × DosValue)

/-- Dict lookup, `dos_data[k]` / `dos_data.get(k)`. -/
def dLookup (k : String) : DosData → Option DosValue
  | [] => none
  | (k2, v) :: rest => if k2 = k then some v else dLookup k rest

/-- `dos_data.keys()`. -/
def dKeys (d : DosData) : List String := d.map (fun p => p.1)

/-- The module-level configuration switches of the script, with the
shipped values as defaults.  Only switches that influence the observable
data of the chart are modelled (colors, legend and fonts are pure
aesthetics). -/
structure Config where
  ALIGN_TO_FERMI : Bool := true
  SHOW_TOTAL_DOS : Bool := false
  SHOW_FERMI_LINE : Bool := false
  X_LIM : ℚ × ℚ := (-5, 5)
  Y_LIM : Option (ℚ × ℚ) := none
  ORDER_MODE : String := "auto"
  MANUAL_ORDER : List String := ["Fe", "Ti", "O", "N"]

/-- Observable outputs of one `plot_vasp_dos` call: the plotted energy
axis, the Fermi-line x-position, the spin flag, the plotted label order,
the per-label `(y_up, y_dw)` series actually drawn, and the y-axis
limits. -/
structure RenderResult where
  plot_energy : List ℚ
  fermi_line : ℚ
  has_spin : Bool
  sorted_labels : List String
  pdos : List (String × List ℚ × List ℚ)
  ylim : ℚ × ℚ
deriving DecidableEq

/-- Lines 78-85: the energy axis, shifted by the Fermi energy when
`ALIGN_TO_FERMI` is set. -/
def plotEnergyOf (cfg : Config) (raw_energy : List ℚ) (efermi_val : ℚ) : List ℚ :=
  if cfg.ALIGN_TO_FERMI then raw_energy.map (fun e => e - efermi_val) else raw_energy

/-- Line 88: `np.any` of a dict value (any non-zero entry). -/
def dvNonzero : DosValue → Bool
  | DosValue.scalar q => decide (q ≠ 0)
  | DosValue.seq l => l.any (fun q => decide (q ≠ 0))

/-- Line 88: the `down` key is present and `np.any` of its value holds. -/
def hasSpinOf (d : DosData) : Bool :=
  match dLookup "down" d with
  | some v => dvNonzero v
  | none => false

/-- Line 92: the reserved keys. -/
def ignore_keys : List String := ["energies", "fermi_energy", "up", "down"]

/-- Line 93: `k.replace` deleting every `_up`, then every `_down`. -/
def stripLabel (k : String) : String :=
  String.mk (replaceAll "_down".data (replaceAll "_up".data k.data))

/-- Line 93: the de-duplicated stripped non-reserved keys.  The
`list(set(...))` of Python has unspecified order; `dedup` fixes one.  The order is
irrelevant downstream because `get_sorted_labels` totally orders distinct
labels. -/
def rawLabelsOf (d : DosData) : List String :=
  (((dKeys d).filter (fun k => !ignore_keys.contains k)).map stripLabel).dedup

/-- Line 95: the sorted label list driving the plotting loop. -/
def sortedLabelsOf (cfg : Config) (d : DosData) : List String :=
  get_sorted_labels (rawLabelsOf d) cfg.ORDER_MODE (some cfg.MANUAL_ORDER)

/-- Line 105: `(plot_energy >= X_LIM[0]) & (plot_energy <= X_LIM[1])`. -/
def maskOf (cfg : Config) (plot_energy : List ℚ) : List Bool :=
  plot_energy.map (fun e => decide (cfg.X_LIM.1 ≤ e) && decide (e ≤ cfg.X_LIM.2))

/-- Boolean-mask indexing `ys[mask]` of numpy. -/
def maskedVals (ys : List ℚ) (mask : List Bool) : List ℚ :=
  (ys.zip mask).filterMap (fun p => if p.2 then some p.1 else none)

/-- `.max()` of a numpy array (the script only applies it to non-empty
selections; the `[]` value is junk and never reached on well-formed
input). -/
def listMax : List ℚ → ℚ
  | [] => 0
  | x :: xs => xs.foldl max x

/-- Line 143: `np.max(y_max_trackers) if y_max_trackers else 1.0`. -/
def currMax (trackers : List ℚ) : ℚ :=
  match trackers with
  | [] => 1
  | x :: xs => xs.foldl max x

/-- Lines 145-152: explicit `Y_LIM` wins; otherwise 1.25x the tracked
maximum, symmetric when spin-polarized, zero-based otherwise. -/
def ylimOf (cfg : Config) (spin : Bool) (trackers : List ℚ) : ℚ × ℚ :=
  match cfg.Y_LIM with
  | some yl => yl
  | none =>
    if spin then (-(currMax trackers * (5 / 4)), currMax trackers * (5 / 4))
    else (0, currMax trackers * (5 / 4))

/-- Lines 125-126: `dos_data.get(key, np.zeros_like(raw_energy))`.  A
scalar value at a series key makes the later mask-indexing/plot calls
fault, modelled as an error. -/
def channelSeq (d : DosData) (key : String) (n : Nat) : Except String (List ℚ) :=
  match dLookup key d with
  | none => Except.ok (List.replicate n 0)
  | some (DosValue.seq l) => Except.ok l
  | some (DosValue.scalar _) => Except.error ("TypeError: " ++ key)

/-- Lines 122-126: fetch both spin channels for each label, in plotting
order. -/
def pdosOf (d : DosData) (n : Nat) : List String → Except String (List (String × List ℚ × List ℚ))
  | [] => Except.ok []
  | label :: rest =>
    match channelSeq d (label ++ "_up") n with
    | Except.error e => Except.error e
    | Except.ok y_up =>
      match channelSeq d (label ++ "_down") n with
      | Except.error e => Except.error e
      | Except.ok y_dw =>
        match pdosOf d n rest with
        | Except.error e => Except.error e
        | Except.ok ps => Except.ok ((label, y_up, y_dw) :: ps)

/-- Lines 109-119: the y-max tracker contributions of the total-DOS trace
(section A); empty when `SHOW_TOTAL_DOS` is off or no sample is in view.
The up channel contributes its signed masked maximum, the down channel
the maximum of its masked absolute values. -/
def totalTrackersOf (cfg : Config) (d : DosData) (raw_energy : List ℚ) (efermi_val : ℚ)
    (dos_up : List ℚ) : Except String (List ℚ) :=
  let mask := maskOf cfg (plotEnergyOf cfg raw_energy efermi_val)
  if cfg.SHOW_TOTAL_DOS then
    if hasSpinOf d then
      match dLookup "down" d with
      | some (DosValue.seq dos_dw) =>
        Except.ok (if mask.any id then
          [listMax (maskedVals dos_up mask),
            listMax (maskedVals (dos_dw.map (fun q => |q|)) mask)]
          else [])
      | _ => Except.error "TypeError: down"
    else
      Except.ok (if mask.any id then [listMax (maskedVals dos_up mask)] else [])
  else Except.ok []

/-- Lines 128-140: the y-max tracker contributions of the PDOS loop
(section B), in label order. -/
def pdosTrackersOf (spin : Bool) (mask : List Bool)
    (ps : List (String × List ℚ × List ℚ)) : List ℚ :=
  ps.flatMap (fun p =>
    if spin then
      if mask.any id then
        [listMax (maskedVals p.2.1 mask), listMax (maskedVals (p.2.2.map (fun q => |q|)) mask)]
      else []
    else
      if mask.any id then [listMax (maskedVals p.2.1 mask)] else [])

/-- Lines 142-160: gather the observable outputs of the call. -/
def assembleResult (cfg : Config) (d : DosData) (raw_energy : List ℚ) (efermi_val : ℚ)
    (tt : List ℚ) (ps : List (String × List ℚ × List ℚ)) : RenderResult :=
  { plot_energy := plotEnergyOf cfg raw_energy efermi_val
    fermi_line := if cfg.ALIGN_TO_FERMI then 0 else efermi_val
    has_spin := hasSpinOf d
    sorted_labels := sortedLabelsOf cfg d
    pdos := ps
    ylim := ylimOf cfg (hasSpinOf d)
      (tt ++ pdosTrackersOf (hasSpinOf d)
        (maskOf cfg (plotEnergyOf cfg raw_energy efermi_val)) ps) }

/-- `plot_vasp_dos` of the script.  The three dict accesses of lines
75, 76 and 87 fault (KeyError) when the key is missing, in that order;
a sequence where a scalar is expected (or vice versa) faults when the
value is used. -/
def plot_vasp_dos (cfg : Config) (d : DosData) : Except String RenderResult :=
  match dLookup "energies" d with
  | none => Except.error "KeyError: energies"
  | some (DosValue.scalar _) => Except.error "TypeError: energies"
  | some (DosValue.seq raw_energy) =>
    match dLookup "fermi_energy" d with
    | none => Except.error "KeyError: fermi_energy"
    | some (DosValue.seq _) => Except.error "TypeError: fermi_energy"
    | some (DosValue.scalar efermi_val) =>
      match dLookup "up" d with
      | none => Except.error "KeyError: up"
      | some (DosValue.scalar _) => Except.error "TypeError: up"
      | some (DosValue.seq dos_up) =>
        match totalTrackersOf cfg d raw_energy efermi_val dos_up with
        | Except.error e => Except.error e
        | Except.ok tt =>
          match pdosOf d raw_energy.length (sortedLabelsOf cfg d) with
          | Except.error e => Except.error e
          | Except.ok ps => Except.ok (assembleResult cfg d raw_energy efermi_val tt ps)

/-- Default result used to project a known-successful `Except`. -/
def dfltR : RenderResult :=
  { plot_energy := [], fermi_line := 0, has_spin := false,
    sorted_labels := [], pdos := [], ylim := (0, 0) }

/-- Projection of a successful run. -/
def okOr (e : Except String RenderResult) (r : RenderResult) : RenderResult :=
  match e with
  | Except.ok v => v
  | Except.error _ => r

/-! ### Inversion of a successful render -/

theorem plot_ok_elim {cfg : Config} {d : DosData} {r : RenderResult}
    (h : plot_vasp_dos cfg d = Except.ok r) :
    ∃ es f up tt ps, dLookup "energies" d = some (DosValue.seq es) ∧
      dLookup "fermi_energy" d = some (DosValue.scalar f) ∧
      dLookup "up" d = some (DosValue.seq up) ∧
      totalTrackersOf cfg d es f up = Except.ok tt ∧
      pdosOf d es.length (sortedLabelsOf cfg d) = Except.ok ps ∧
      r = assembleResult cfg d es f tt ps := by
  unfold plot_vasp_dos at h
  split at h
  · cases h
  · cases h
  next es he =>
    split at h
    · cases h
    · cases h
    next f hf =>
      split at h
      · cases h
      · cases h
      next up hu =>
        split at h
        · cases h
        next tt ht =>
          split at h
          · cases h
          next ps hp =>
            injection h with h2
            subst h2
            exact ⟨es, f, up, tt, ps, he, hf, hu, ht, hp, rfl⟩

/-! ### Dict lookups after appending an entry -/

theorem dLookup_append_of_isSome {k : String} {d : DosData} {v : DosValue}
    (h : dLookup k d = some v) (d2 : DosData) : dLookup k (d ++ d2) = some v := by
  induction d with
  | nil => simp [dLookup] at h
  | cons p rest ih =>
    obtain ⟨k2, v2⟩ := p
    rw [List.cons_append]
    unfold dLookup at h ⊢
    by_cases hk : k2 = k
    · rw [if_pos hk] at h ⊢; exact h
    · rw [if_neg hk] at h ⊢; exact ih h

theorem dLookup_append_none {k : String} {d : DosData}
    (h : dLookup k d = none) (d2 : DosData) : dLookup k (d ++ d2) = dLookup k d2 := by
  induction d with
  | nil => simp
  | cons p rest ih =>
    obtain ⟨k2, v2⟩ := p
    rw [List.cons_append]
    unfold dLookup at h
    by_cases hk : k2 = k
    · rw [if_pos hk] at h; cases h
    · rw [if_neg hk] at h
      show (if k2 = k then some v2 else dLookup k (rest ++ d2)) = dLookup k d2
      rw [if_neg hk]
      exact ih h

/-! ### The PDOS loop entry of a given label -/

theorem pdosOf_find {d : DosData} {n : Nat} {labels : List String} {ps}
    (h : pdosOf d n labels = Except.ok ps) {A : String} (hA : A ∈ labels) :
    ∃ yu yd, channelSeq d (A ++ "_up") n = Except.ok yu ∧
      channelSeq d (A ++ "_down") n = Except.ok yd ∧
      ps.find? (fun p => p.1 == A) = some (A, yu, yd) := by
  induction labels generalizing ps with
  | nil => cases hA
  | cons l rest ih =>
    unfold pdosOf at h
    cases hcu : channelSeq d (l ++ "_up") n with
    | error e => rw [hcu] at h; cases h
    | ok yu0 =>
      rw [hcu] at h
      cases hcd : channelSeq d (l ++ "_down") n with
      | error e => rw [hcd] at h; cases h
      | ok yd0 =>
        rw [hcd] at h
        cases hrest : pdosOf d n rest with
        | error e => rw [hrest] at h; cases h
        | ok ps0 =>
          rw [hrest] at h
          injection h with h2
          subst h2
          by_cases hl : l = A
          · subst hl
            refine ⟨yu0, yd0, hcu, hcd, ?_⟩
            simp [List.find?]
          · have hA2 : A ∈ rest := by
              rcases List.mem_cons.mp hA with h3 | h3
              · exact absurd h3.symm hl
              · exact h3
            obtain ⟨yu, yd, hu2, hd2, hf⟩ := ih hrest hA2
            refine ⟨yu, yd, hu2, hd2, ?_⟩
            rw [List.find?_cons_of_neg]
            · exact hf
            · simp [hl]

/-! ### Raw labels are preserved by appending an entry -/

theorem mem_rawLabels_append {d : DosData} {A : String} (hA : A ∈ rawLabelsOf d)
    (e : String × DosValue) : A ∈ rawLabelsOf (d ++ [e]) := by
  unfold rawLabelsOf at hA ⊢
  rw [List.mem_dedup] at hA ⊢
  have hkeys : dKeys (d ++ [e]) = dKeys d ++ [e.1] := by simp [dKeys]
  rw [hkeys, List.filter_append, List.map_append, List.mem_append]
  exact Or.inl hA

/-! ### Empty trackers when nothing is in view -/

theorem totalTrackers_no_view {cfg : Config} {d : DosData} {raw : List ℚ} {f : ℚ}
    {up tt : List ℚ} (h : totalTrackersOf cfg d raw f up = Except.ok tt)
    (hm : (maskOf cfg (plotEnergyOf cfg raw f)).any id = false) : tt = [] := by
  simp only [totalTrackersOf, hm, Bool.false_eq_true, if_false, ite_false] at h
  split at h
  · split at h
    · split at h
      · injection h with h2; exact h2.symm
      · cases h
    · injection h with h2; exact h2.symm
  · injection h with h2; exact h2.symm

theorem pdosTrackers_no_view {spin : Bool} {mask : List Bool}
    (ps : List (String × List ℚ × List ℚ)) (hm : mask.any id = false) :
    pdosTrackersOf spin mask ps = [] := by
  induction ps with
  | nil => rfl
  | cons p rest ih =>
    simp only [pdosTrackersOf, List.flatMap_cons, hm, Bool.false_eq_true, if_false,
      ite_false, ite_self, List.nil_append] at ih ⊢
    exact ih

/-! ### Claim C1: auto-mode bucket sorting -/

/-- C1: in `auto` mode, `get_sorted_labels` returns the metal-bucket
labels (leading element symbol not in `NON_METALS`), then the non-metal
bucket (symbol in `NON_METALS`), then the unrecognized labels (no leading
capital), each bucket sorted alphabetically (code-point order) and each
bucket a permutation of the matching input labels; in particular the
stripped label set of Fe/O yields the order Fe, O. -/
theorem C1_auto_mode_buckets :
    (∀ (labels : List String) (mo : Option (List String)),
      ∃ M N O, get_sorted_labels labels "auto" mo = M ++ N ++ O ∧
        List.Perm M (labels.filter isMetalLabel) ∧
        List.Perm N (labels.filter isNonMetalLabel) ∧
        List.Perm O (labels.filter isOtherLabel) ∧
        M.Pairwise (fun a b => pyStrLe a b = true) ∧
        N.Pairwise (fun a b => pyStrLe a b = true) ∧
        O.Pairwise (fun a b => pyStrLe a b = true)) ∧
    get_sorted_labels ["Fe", "O"] "auto" none = ["Fe", "O"] ∧
    get_sorted_labels ["O", "Fe"] "auto" none = ["Fe", "O"] := by
  refine ⟨?_, by decide, by decide⟩
  intro labels mo
  refine ⟨sortBy pyStrLe (labels.filter isMetalLabel),
    sortBy pyStrLe (labels.filter isNonMetalLabel),
    sortBy pyStrLe (labels.filter isOtherLabel), ?_,
    sortBy_perm _ _, sortBy_perm _ _, sortBy_perm _ _,
    sortBy_pairwise pyStrLe_total (fun a b c h1 h2 => pyStrLe_trans h1 h2) _,
    sortBy_pairwise pyStrLe_total (fun a b c h1 h2 => pyStrLe_trans h1 h2) _,
    sortBy_pairwise pyStrLe_total (fun a b c h1 h2 => pyStrLe_trans h1 h2) _⟩
  unfold get_sorted_labels
  rw [if_neg]
  intro hcond
  exact absurd hcond.1 (by decide)

/-! ### Claim C10: the result is always a permutation of the input -/

/-- C10: for every label list, mode and manual order list,
`get_sorted_labels` returns a permutation of its input: the same labels
with the same multiplicities, none dropped, duplicated or renamed. -/
theorem C10_sorted_labels_perm (labels : List String) (mode : String)
    (mo : Option (List String)) :
    List.Perm (get_sorted_labels labels mode mo) labels :=
  gsl_perm labels mode mo

/-! ### Claim C2: manual-mode ordering (corrected) -/

/-- A 1000-entry manual order list exposing the `999` sentinel of
`manual_key` in the script. -/
def moBig : List String := List.replicate 999 "Zz" ++ ["B"]

set_option maxRecDepth 100000 in
/-- C2 counterexample: with the 1000-entry manual order list `moBig`,
the label B is ranked (it occurs in the list, at index 999) and the label
A is unranked (neither A nor its element symbol occurs), yet the sorted
output places the unranked A before the ranked B, because unranked labels
get the sentinel rank 999 which collides with true index 999.  This
refutes the claim for arbitrary non-empty manual order lists. -/
theorem C2_counterexample :
    get_sorted_labels ["B", "A"] "manual" (some moBig) = ["A", "B"] ∧
    lastIdx moBig "B" = some 999 ∧
    lastIdx moBig (get_element "A") = none ∧
    lastIdx moBig "A" = none := by
  refine ⟨by decide, by decide, by decide, by decide⟩

/-- Rank as the claim describes it: the index of the element symbol in the
manual order list, falling back to the raw label; `none` when unranked. -/
def specRank (mo : List String) (l : String) : Option Nat :=
  match lastIdx mo (get_element l) with
  | some i => some i
  | none => lastIdx mo l

/-- The relative order asserted by the claim: ranked labels by list index,
ties alphabetical; every ranked label before every unranked one; unranked
labels alphabetical. -/
def claimOrder (mo : List String) (a b : String) : Prop :=
  match specRank mo a, specRank mo b with
  | some i, some j => i < j ∨ (i = j ∧ pyStrLe a b = true)
  | some _, none => True
  | none, some _ => False
  | none, none => pyStrLe a b = true

theorem rankOf_eq_specRank (mo : List String) (l : String) :
    rankOf mo l = (specRank mo l).getD 999 := by
  cases h1 : lastIdx mo (get_element l) <;> cases h2 : lastIdx mo l <;>
    simp [rankOf, specRank, h1, h2]

theorem specRank_lt {mo : List String} {l : String} {i : Nat}
    (h : specRank mo l = some i) : i < mo.length := by
  unfold specRank at h
  cases h1 : lastIdx mo (get_element l) with
  | some j =>
    rw [h1] at h
    injection h with h2
    exact h2 ▸ lastIdx_lt_length mo _ j h1
  | none =>
    rw [h1] at h
    exact lastIdx_lt_length mo _ i h

theorem manualLe_implies_claimOrder {mo : List String} {a b : String}
    (hlen : mo.length ≤ 999) (h : manualLe mo a b = true) : claimOrder mo a b := by
  have ha := rankOf_eq_specRank mo a
  have hb := rankOf_eq_specRank mo b
  have h2 := (manualLe_iff mo a b).mp h
  unfold claimOrder
  cases hsa : specRank mo a with
  | some i =>
    cases hsb : specRank mo b with
    | some j =>
      rw [hsa] at ha
      rw [hsb] at hb
      simp only [Option.getD_some] at ha hb
      rcases h2 with hlt | ⟨heq, hs⟩
      · exact Or.inl (by omega)
      · exact Or.inr ⟨by omega, hs⟩
    | none => trivial
  | none =>
    cases hsb : specRank mo b with
    | some j =>
      rw [hsa] at ha
      rw [hsb] at hb
      simp only [Option.getD_some, Option.getD_none] at ha hb
      have hj : j < mo.length := specRank_lt hsb
      rcases h2 with hlt | ⟨heq, hs⟩
      · omega
      · omega
    | none =>
      rw [hsa] at ha
      rw [hsb] at hb
      simp only [Option.getD_none] at ha hb
      rcases h2 with hlt | ⟨heq, hs⟩
      · omega
      · exact hs

/-- C2 (amended): for every label list and non-empty manual order list of
at most 999 entries, the `manual`-mode output is a permutation of the
input, consecutive labels respect the order the claim asserts (ranked labels by
list index with alphabetical tie-break, every ranked label before every
unranked one, unranked labels alphabetical).  The 999-entry bound is
forced by the sentinel rank 999 the script gives unranked labels
(`C2_counterexample`). -/
theorem C2_manual_mode_amended (labels : List String) (mo : List String)
    (hne : mo ≠ []) (hlen : mo.length ≤ 999) :
    (get_sorted_labels labels "manual" (some mo)).Pairwise (claimOrder mo) ∧
    List.Perm (get_sorted_labels labels "manual" (some mo)) labels := by
  constructor
  · have htruthy : moTruthy (some mo) = true := by
      cases mo with
      | nil => exact absurd rfl hne
      | cons a l => rfl
    unfold get_sorted_labels
    rw [if_pos ⟨rfl, htruthy⟩]
    have hp := sortBy_pairwise (manualLe_total mo)
      (fun a b c h1 h2 => manualLe_trans mo h1 h2) labels
    exact hp.imp (fun hab => manualLe_implies_claimOrder hlen hab)
  · exact gsl_perm labels "manual" (some mo)

/-- C2 witness: the example of the spec, `manual_order = [O, Fe]` with
labels Fe, O, N, satisfies the amended claim and produces O, Fe, N. -/
theorem C2_manual_mode_amended_witness :
    ((get_sorted_labels ["Fe", "O", "N"] "manual" (some ["O", "Fe"])).Pairwise
      (claimOrder ["O", "Fe"]) ∧
     List.Perm (get_sorted_labels ["Fe", "O", "N"] "manual" (some ["O", "Fe"]))
       ["Fe", "O", "N"]) ∧
    get_sorted_labels ["Fe", "O", "N"] "manual" (some ["O", "Fe"]) = ["O", "Fe", "N"] :=
  ⟨C2_manual_mode_amended ["Fe", "O", "N"] ["O", "Fe"] (by decide) (by decide), by decide⟩

/-! ### Concrete configurations and inputs for the renderer claims -/

/-- The shipped configuration of the script. -/
def cfgDefault : Config := {}

/-- Shipped configuration with alignment on but an explicit y-range. -/
def cfgAlign : Config := { Y_LIM := some (0, 10) }

/-- Configuration with alignment off and an explicit y-range. -/
def cfgNoAlign : Config := { ALIGN_TO_FERMI := false, Y_LIM := some (0, 10) }

/-- The energy-alignment example input of the spec. -/
def dE3 : DosData :=
  [("energies", DosValue.seq [-2, -1, 0, 1, 2]), ("fermi_energy", DosValue.scalar 1),
    ("up", DosValue.seq [0, 0, 0, 0, 0])]

/-- Input with a non-zero `down` total series. -/
def dE4 : DosData :=
  [("energies", DosValue.seq [0]), ("fermi_energy", DosValue.scalar 0),
    ("up", DosValue.seq [1]), ("down", DosValue.seq [2])]

/-- Input with per-species series but no `up` key. -/
def dE9 : DosData :=
  [("energies", DosValue.seq [0]), ("fermi_energy", DosValue.scalar 0),
    ("A_up", DosValue.seq [1])]

theorem mapSub_example :
    List.map (fun e => e - (1 : ℚ)) [-2, -1, 0, 1, 2] = [-3, -2, -1, 0, 1] := by
  norm_num

/-! ### Claim C3: energy alignment -/

/-- C3: for every input, the plotted energy sequence is the input energies
with the Fermi energy subtracted element-wise when `ALIGN_TO_FERMI` is on,
and the unchanged input energies when it is off. -/
theorem C3_energy_alignment (cfg : Config) (d : DosData) (es : List ℚ) (f : ℚ)
    (r : RenderResult)
    (hen : dLookup "energies" d = some (DosValue.seq es))
    (hf : dLookup "fermi_energy" d = some (DosValue.scalar f))
    (h : plot_vasp_dos cfg d = Except.ok r) :
    (cfg.ALIGN_TO_FERMI = true → r.plot_energy = es.map (fun e => e - f)) ∧
    (cfg.ALIGN_TO_FERMI = false → r.plot_energy = es) := by
  obtain ⟨es2, f2, up, tt, ps, he2, hf2, hu2, ht2, hp2, hr⟩ := plot_ok_elim h
  rw [hen] at he2
  injection he2 with h3
  injection h3 with h4
  subst h4
  rw [hf] at hf2
  injection hf2 with h5
  injection h5 with h6
  subst h6
  subst hr
  constructor <;> intro ha <;> simp [assembleResult, plotEnergyOf, ha]

/-- C3 witness: energies -2..2 with Fermi energy 1 and alignment on are
plotted as -3..1 (the example of the spec). -/
theorem C3_witness :
    (okOr (plot_vasp_dos cfgAlign dE3) dfltR).plot_energy = [-3, -2, -1, 0, 1] := by
  rw [← mapSub_example]
  exact (C3_energy_alignment cfgAlign dE3 [-2, -1, 0, 1, 2] 1
    (okOr (plot_vasp_dos cfgAlign dE3) dfltR) rfl rfl rfl).1 rfl

/-! ### Claim C4: spin detection -/

/-- C4: a successful render is in spin mode exactly when the mapping has a
`down` entry with some non-zero content (`np.any`); a missing or all-zero
`down` entry leaves spin mode off. -/
theorem C4_spin_detection (cfg : Config) (d : DosData) (r : RenderResult)
    (h : plot_vasp_dos cfg d = Except.ok r) :
    r.has_spin = true ↔ ∃ v, dLookup "down" d = some v ∧ dvNonzero v = true := by
  obtain ⟨es, f, up, tt, ps, he, hf, hu, ht, hp, hr⟩ := plot_ok_elim h
  subst hr
  constructor
  · intro hs
    simp only [assembleResult] at hs
    unfold hasSpinOf at hs
    cases hd : dLookup "down" d with
    | none => rw [hd] at hs; simp at hs
    | some v => rw [hd] at hs; exact ⟨v, rfl, hs⟩
  · rintro ⟨v, hd, hv⟩
    simp only [assembleResult]
    unfold hasSpinOf
    rw [hd]
    exact hv

/-- C4 witness: a `down` series with a non-zero entry switches spin mode
on. -/
theorem C4_witness : (okOr (plot_vasp_dos cfgNoAlign dE4) dfltR).has_spin = true :=
  (C4_spin_detection cfgNoAlign dE4 (okOr (plot_vasp_dos cfgNoAlign dE4) dfltR) rfl).mpr
    ⟨DosValue.seq [2], rfl, by decide⟩

/-! ### Claim C9: the `up` key is an unconditional precondition -/

/-- C9: whenever the mapping has `energies` and `fermi_energy` but no `up`
key, the renderer faults with a KeyError before producing any output, for
every configuration (in particular with `SHOW_TOTAL_DOS` off and only
per-species series present). -/
theorem C9_up_key_required (cfg : Config) (d : DosData) (es : List ℚ) (f : ℚ)
    (hen : dLookup "energies" d = some (DosValue.seq es))
    (hf : dLookup "fermi_energy" d = some (DosValue.scalar f))
    (hup : dLookup "up" d = none) :
    plot_vasp_dos cfg d = Except.error "KeyError: up" := by
  unfold plot_vasp_dos
  rw [hen, hf, hup]

/-- C9 witness: a mapping with only a per-species series and no `up` key
faults even in the shipped configuration with the total trace disabled. -/
theorem C9_witness : plot_vasp_dos cfgDefault dE9 = Except.error "KeyError: up" :=
  C9_up_key_required cfgDefault dE9 [0] 0 rfl rfl rfl

/-! ### Claim C6: the plotted label set -/

/-- C6: the plotted labels are exactly the non-reserved keys with their
`_up`/`_down` suffixes stripped, each appearing once (keys differing only
in the spin suffix collapse to a single label). -/
theorem C6_label_set (cfg : Config) (d : DosData) (r : RenderResult)
    (h : plot_vasp_dos cfg d = Except.ok r) :
    (∀ s, s ∈ r.sorted_labels ↔
      ∃ k, k ∈ dKeys d ∧ ¬(k ∈ ignore_keys) ∧ stripLabel k = s) ∧
    r.sorted_labels.Nodup := by
  obtain ⟨es, f, up, tt, ps, he, hf, hu, ht, hp, hr⟩ := plot_ok_elim h
  subst hr
  simp only [assembleResult]
  have hperm := gsl_perm (rawLabelsOf d) cfg.ORDER_MODE (some cfg.MANUAL_ORDER)
  constructor
  · intro s
    unfold sortedLabelsOf
    rw [hperm.mem_iff]
    unfold rawLabelsOf
    rw [List.mem_dedup, List.mem_map]
    constructor
    · rintro ⟨k, hk, hstrip⟩
      rw [List.mem_filter] at hk
      refine ⟨k, hk.1, ?_, hstrip⟩
      intro hmem
      have hc2 : ignore_keys.contains k = true := List.elem_eq_true_of_mem hmem
      rw [hc2] at hk
      simp at hk
    · rintro ⟨k, hk, hnot, hstrip⟩
      refine ⟨k, ?_, hstrip⟩
      rw [List.mem_filter]
      refine ⟨hk, ?_⟩
      cases hc : ignore_keys.contains k with
      | false => rfl
      | true => exact absurd (List.mem_of_elem_eq_true hc) hnot
  · unfold sortedLabelsOf
    exact hperm.nodup_iff.mpr (List.nodup_dedup _)

/-- Input whose keys Fe_up, Fe_down, O_up collapse to the labels Fe and
O. -/
def dE6 : DosData :=
  [("energies", DosValue.seq [0]), ("fermi_energy", DosValue.scalar 0),
    ("up", DosValue.seq [0]), ("Fe_up", DosValue.seq [1]),
    ("Fe_down", DosValue.seq [2]), ("O_up", DosValue.seq [3])]

/-- C6 witness: for the concrete input above, Fe is plotted (from its two
spin-suffixed keys), the stripped key fact is exhibited, and the plotted
label list has no duplicates. -/
theorem C6_witness :
    ((okOr (plot_vasp_dos cfgNoAlign dE6) dfltR).sorted_labels.Nodup ∧
      ("Fe" ∈ (okOr (plot_vasp_dos cfgNoAlign dE6) dfltR).sorted_labels ↔
        ∃ k, k ∈ dKeys dE6 ∧ ¬(k ∈ ignore_keys) ∧ stripLabel k = "Fe")) ∧
    (okOr (plot_vasp_dos cfgNoAlign dE6) dfltR).sorted_labels = ["Fe", "O"] :=
  ⟨⟨(C6_label_set cfgNoAlign dE6 (okOr (plot_vasp_dos cfgNoAlign dE6) dfltR) rfl).2,
    (C6_label_set cfgNoAlign dE6 (okOr (plot_vasp_dos cfgNoAlign dE6) dfltR) rfl).1 "Fe"⟩,
    by decide⟩

/-! ### Claim C7: y-limit fallback with nothing in view -/

/-- C7: when no plotted energy sample falls inside the x-window, the
auto-scaled y-axis uses the fallback maximum 1.0, giving (-1.25, 1.25) in
spin mode and (0, 1.25) otherwise. -/
theorem C7_ylim_fallback (cfg : Config) (d : DosData) (r : RenderResult)
    (hY : cfg.Y_LIM = none)
    (h : plot_vasp_dos cfg d = Except.ok r)
    (hview : (maskOf cfg r.plot_energy).any id = false) :
    r.ylim = if r.has_spin = true then (-(5 / 4 : ℚ), (5 / 4 : ℚ)) else (0, (5 / 4 : ℚ)) := by
  obtain ⟨es, f, up, tt, ps, he, hf, hu, ht, hp, hr⟩ := plot_ok_elim h
  subst hr
  simp only [assembleResult] at hview ⊢
  have htt : tt = [] := totalTrackers_no_view ht hview
  subst htt
  rw [pdosTrackers_no_view ps hview]
  simp only [List.nil_append, ylimOf, hY, currMax]
  split_ifs <;> norm_num [Prod.ext_iff]

/-- Input whose single energy sample 10 lies outside the x-window. -/
def dE7 : DosData :=
  [("energies", DosValue.seq [10]), ("fermi_energy", DosValue.scalar 0),
    ("up", DosValue.seq [3]), ("A_up", DosValue.seq [7])]

/-- Configuration with alignment off and auto-scaled y-axis. -/
def cfgAuto : Config := { ALIGN_TO_FERMI := false }

/-- C7 witness: the sample at 10 is outside [-5, 5], so the y-range falls
back to (0, 1.25). -/
theorem C7_witness :
    (okOr (plot_vasp_dos cfgAuto dE7) dfltR).ylim =
      (if (okOr (plot_vasp_dos cfgAuto dE7) dfltR).has_spin = true
        then (-(5 / 4 : ℚ), (5 / 4 : ℚ)) else (0, (5 / 4 : ℚ))) :=
  C7_ylim_fallback cfgAuto dE7 (okOr (plot_vasp_dos cfgAuto dE7) dfltR) rfl rfl (by decide)

/-! ### Claim C5: auto y-limit (corrected) -/

/-- Input with a negative-valued up-channel series in view. -/
def dC5 : DosData :=
  [("energies", DosValue.seq [0]), ("fermi_energy", DosValue.scalar 0),
    ("up", DosValue.seq [0]), ("A_up", DosValue.seq [-2])]

/-- C5 counterexample: the visible series A_up = [-2] has maximum absolute
intensity 2, so the claim predicts a top limit of 1.25 * 2 = 5/2; the
script instead tracks the signed maximum -2 of the up channel and sets the
y-range to (0, -5/2).  So the top limit is not 1.25x the maximum absolute
visible intensity. -/
theorem C5_counterexample :
    (plot_vasp_dos cfgAuto dC5).isOk = true ∧
    (okOr (plot_vasp_dos cfgAuto dC5) dfltR).ylim = (0, -(5 / 2 : ℚ)) ∧
    listMax (maskedVals (List.map (fun q => |q|) [(-2 : ℚ)])
      (maskOf cfgAuto (okOr (plot_vasp_dos cfgAuto dC5) dfltR).plot_energy)) = 2 ∧
    ¬(-(5 / 2 : ℚ) = (5 / 4 : ℚ) * 2) := by
  refine ⟨rfl, ?_, by decide, by norm_num⟩
  show ((0 : ℚ), (-2 : ℚ) * (5 / 4)) = ((0 : ℚ), -(5 / 2 : ℚ))
  norm_num [Prod.ext_iff]

/-- The maximum the amended claim asserts: over the plotted per-label
series, the signed maximum of the visible up-channel values and the
maximum of the visible absolute down-channel values (the latter only in
spin mode). -/
def visibleSeriesMax (spin : Bool) (mask : List Bool)
    (ps : List (String × List ℚ × List ℚ)) : ℚ :=
  listMax (ps.flatMap (fun p =>
    if spin then
      [listMax (maskedVals p.2.1 mask), listMax (maskedVals (p.2.2.map (fun q => |q|)) mask)]
    else [listMax (maskedVals p.2.1 mask)]))

theorem currMax_eq_listMax {l : List ℚ} (h : l ≠ []) : currMax l = listMax l := by
  cases l with
  | nil => exact absurd rfl h
  | cons x xs => rfl

/-- C5 (amended): without an explicit `Y_LIM` and with the total-DOS trace
disabled, when some sample is in view and at least one label is plotted,
the top y-limit is 1.25x the maximum over the plotted series of the signed
visible up-channel maxima and the visible absolute down-channel maxima
(down channels only in spin mode); the range is symmetric around zero in
spin mode and zero-based otherwise.  The claimed "maximum absolute
intensity" fails for negative up-channel values (`C5_counterexample`):
the script takes the signed maximum of up channels. -/
theorem C5_auto_ylim_amended (cfg : Config) (d : DosData) (r : RenderResult)
    (hY : cfg.Y_LIM = none) (hT : cfg.SHOW_TOTAL_DOS = false)
    (h : plot_vasp_dos cfg d = Except.ok r)
    (hview : (maskOf cfg r.plot_energy).any id = true)
    (hne : r.pdos ≠ []) :
    r.ylim =
      (if r.has_spin = true then
        (-(visibleSeriesMax r.has_spin (maskOf cfg r.plot_energy) r.pdos * (5 / 4)),
          visibleSeriesMax r.has_spin (maskOf cfg r.plot_energy) r.pdos * (5 / 4))
      else (0, visibleSeriesMax r.has_spin (maskOf cfg r.plot_energy) r.pdos * (5 / 4))) := by
  obtain ⟨es, f, up, tt, ps, he, hf, hu, ht, hp, hr⟩ := plot_ok_elim h
  subst hr
  simp only [assembleResult] at hview hne ⊢
  have htt : tt = [] := by
    unfold totalTrackersOf at ht
    rw [hT] at ht
    simp at ht
    exact ht
  subst htt
  have hpt : pdosTrackersOf (hasSpinOf d) (maskOf cfg (plotEnergyOf cfg es f)) ps =
      ps.flatMap (fun p =>
        if hasSpinOf d then
          [listMax (maskedVals p.2.1 (maskOf cfg (plotEnergyOf cfg es f))),
            listMax (maskedVals (p.2.2.map (fun q => |q|))
              (maskOf cfg (plotEnergyOf cfg es f)))]
        else [listMax (maskedVals p.2.1 (maskOf cfg (plotEnergyOf cfg es f)))]) := by
    unfold pdosTrackersOf
    simp only [hview, if_true, ite_true]
  have hne2 : pdosTrackersOf (hasSpinOf d) (maskOf cfg (plotEnergyOf cfg es f)) ps ≠ [] := by
    cases ps with
    | nil => exact absurd rfl hne
    | cons p rest => cases hasSpinOf d <;> simp [pdosTrackersOf, hview]
  simp only [List.nil_append, ylimOf, hY]
  have hcm : currMax (pdosTrackersOf (hasSpinOf d) (maskOf cfg (plotEnergyOf cfg es f)) ps) =
      visibleSeriesMax (hasSpinOf d) (maskOf cfg (plotEnergyOf cfg es f)) ps := by
    rw [currMax_eq_listMax hne2, hpt]
    rfl
  rw [hcm]

/-- Input with a single positive visible per-label series. -/
def dE5 : DosData :=
  [("energies", DosValue.seq [0]), ("fermi_energy", DosValue.scalar 0),
    ("up", DosValue.seq [0]), ("A_up", DosValue.seq [2])]

/-- The result of rendering `dE5`. -/
def rE5 : RenderResult := okOr (plot_vasp_dos cfgAuto dE5) dfltR

/-- C5 witness: a concrete auto-scaled render satisfying the amended
claim. -/
theorem C5_auto_ylim_amended_witness :
    rE5.ylim =
      (if rE5.has_spin = true then
        (-(visibleSeriesMax rE5.has_spin (maskOf cfgAuto rE5.plot_energy) rE5.pdos * (5 / 4)),
          visibleSeriesMax rE5.has_spin (maskOf cfgAuto rE5.plot_energy) rE5.pdos * (5 / 4))
      else (0, visibleSeriesMax rE5.has_spin (maskOf cfgAuto rE5.plot_energy) rE5.pdos * (5 / 4))) :=
  C5_auto_ylim_amended cfgAuto dE5 rE5 rfl rfl rfl (by decide) (by decide)

/-! ### Claim C8: missing spin channels default to zeros -/

/-- The `(y_up, y_dw)` pair plotted for a given label. -/
def pdosFind (r : RenderResult) (A : String) : Option (List ℚ × List ℚ) :=
  (r.pdos.find? (fun p => p.1 == A)).map (fun p => p.2)

theorem strApp_up_ne_down (A : String) : A ++ "_up" ≠ A ++ "_down" := by
  intro hcontra
  have hd := congrArg String.data hcontra
  rw [String.data_append, String.data_append] at hd
  have h2 := List.append_cancel_left hd
  exact absurd h2 (by decide)

/-- C8: if the `_up` (resp. `_down`) key of a plotted label is absent, the
renderer substitutes an all-zero sequence of the length of the energies for that
channel instead of erroring, and the series plotted for that label are
identical to those plotted when the mapping explicitly holds that zero
sequence. -/
theorem C8_missing_channel (cfg : Config) (d : DosData) (es : List ℚ)
    (A sfx : String) (r r2 : RenderResult)
    (hen : dLookup "energies" d = some (DosValue.seq es))
    (hsfx : sfx = "_up" ∨ sfx = "_down")
    (hmiss : dLookup (A ++ sfx) d = none)
    (h : plot_vasp_dos cfg d = Except.ok r)
    (hA : A ∈ r.sorted_labels)
    (h2 : plot_vasp_dos cfg (d ++ [(A ++ sfx, DosValue.seq (List.replicate es.length 0))]) =
      Except.ok r2) :
    pdosFind r2 A = pdosFind r A ∧
    (sfx = "_up" → ∃ yd, pdosFind r A = some (List.replicate es.length 0, yd)) ∧
    (sfx = "_down" → ∃ yu, pdosFind r A = some (yu, List.replicate es.length 0)) := by
  obtain ⟨es1, f1, up1, tt1, ps1, he1, hf1, hu1, ht1, hp1, hr1⟩ := plot_ok_elim h
  rw [hen] at he1
  injection he1 with h3
  injection h3 with h4
  subst h4
  obtain ⟨es2, f2, up2, tt2, ps2, he2, hf2, hu2, ht2, hp2, hr2⟩ := plot_ok_elim h2
  have he2b := dLookup_append_of_isSome hen
    [(A ++ sfx, DosValue.seq (List.replicate es.length 0))]
  rw [he2b] at he2
  injection he2 with h5
  injection h5 with h6
  subst h6
  subst hr1
  subst hr2
  simp only [assembleResult] at hA
  have hA1 : A ∈ sortedLabelsOf cfg d := hA
  have hAraw : A ∈ rawLabelsOf d := by
    unfold sortedLabelsOf at hA1
    exact (gsl_perm (rawLabelsOf d) cfg.ORDER_MODE (some cfg.MANUAL_ORDER)).mem_iff.mp hA1
  have hA2 : A ∈ sortedLabelsOf cfg
      (d ++ [(A ++ sfx, DosValue.seq (List.replicate es.length 0))]) := by
    unfold sortedLabelsOf
    exact (gsl_perm _ _ _).mem_iff.mpr (mem_rawLabels_append hAraw _)
  obtain ⟨yu1, yd1, hcu1, hcd1, hfind1⟩ := pdosOf_find hp1 hA1
  obtain ⟨yu2, yd2, hcu2, hcd2, hfind2⟩ := pdosOf_find hp2 hA2
  rcases hsfx with hs | hs
  · subst hs
    have hyu1 : yu1 = List.replicate es.length 0 := by
      unfold channelSeq at hcu1
      rw [hmiss] at hcu1
      injection hcu1 with h7
      exact h7.symm
    have hlu2 : dLookup (A ++ "_up")
        (d ++ [(A ++ "_up", DosValue.seq (List.replicate es.length 0))]) =
        some (DosValue.seq (List.replicate es.length 0)) := by
      rw [dLookup_append_none hmiss]
      simp [dLookup]
    have hyu2 : yu2 = List.replicate es.length 0 := by
      unfold channelSeq at hcu2
      rw [hlu2] at hcu2
      injection hcu2 with h7
      exact h7.symm
    have hld : dLookup (A ++ "_down")
        (d ++ [(A ++ "_up", DosValue.seq (List.replicate es.length 0))]) =
        dLookup (A ++ "_down") d := by
      cases hdd : dLookup (A ++ "_down") d with
      | some v => exact dLookup_append_of_isSome hdd _
      | none =>
        rw [dLookup_append_none hdd]
        show (if A ++ "_up" = A ++ "_down" then
          some (DosValue.seq (List.replicate es.length 0)) else dLookup (A ++ "_down") []) = none
        rw [if_neg (strApp_up_ne_down A)]
        rfl
    have hyd2 : yd2 = yd1 := by
      unfold channelSeq at hcd1 hcd2
      rw [hld] at hcd2
      rw [hcd1] at hcd2
      injection hcd2 with h7
      exact h7.symm
    refine ⟨?_, ?_, ?_⟩
    · unfold pdosFind
      simp only [assembleResult]
      rw [hfind1, hfind2]
      rw [hyu1, hyu2, hyd2]
    · intro _
      refine ⟨yd1, ?_⟩
      unfold pdosFind
      simp only [assembleResult]
      rw [hfind1, hyu1]
      rfl
    · intro hcontra
      exact absurd hcontra (by decide)
  · subst hs
    have hyd1 : yd1 = List.replicate es.length 0 := by
      unfold channelSeq at hcd1
      rw [hmiss] at hcd1
      injection hcd1 with h7
      exact h7.symm
    have hld2 : dLookup (A ++ "_down")
        (d ++ [(A ++ "_down", DosValue.seq (List.replicate es.length 0))]) =
        some (DosValue.seq (List.replicate es.length 0)) := by
      rw [dLookup_append_none hmiss]
      simp [dLookup]
    have hyd2 : yd2 = List.replicate es.length 0 := by
      unfold channelSeq at hcd2
      rw [hld2] at hcd2
      injection hcd2 with h7
      exact h7.symm
    have hlu : dLookup (A ++ "_up")
        (d ++ [(A ++ "_down", DosValue.seq (List.replicate es.length 0))]) =
        dLookup (A ++ "_up") d := by
      cases hdd : dLookup (A ++ "_up") d with
      | some v => exact dLookup_append_of_isSome hdd _
      | none =>
        rw [dLookup_append_none hdd]
        show (if A ++ "_down" = A ++ "_up" then
          some (DosValue.seq (List.replicate es.length 0)) else dLookup (A ++ "_up") []) = none
        rw [if_neg (fun hx => strApp_up_ne_down A hx.symm)]
        rfl
    have hyu2 : yu2 = yu1 := by
      unfold channelSeq at hcu1 hcu2
      rw [hlu] at hcu2
      rw [hcu1] at hcu2
      injection hcu2 with h7
      exact h7.symm
    refine ⟨?_, ?_, ?_⟩
    · unfold pdosFind
      simp only [assembleResult]
      rw [hfind1, hfind2]
      rw [hyd1, hyd2, hyu2]
    · intro hcontra
      exact absurd hcontra (by decide)
    · intro _
      refine ⟨yu1, ?_⟩
      unfold pdosFind
      simp only [assembleResult]
      rw [hfind1, hyd1]
      rfl

/-- Input whose label A has an up channel but no down channel. -/
def dE8 : DosData :=
  [("energies", DosValue.seq [0, 1]), ("fermi_energy", DosValue.scalar 0),
    ("up", DosValue.seq [0, 0]), ("A_up", DosValue.seq [1, 2])]

/-- `dE8` with the missing down channel spelled out as zeros. -/
def dE8b : DosData := dE8 ++ [("A_down", DosValue.seq [0, 0])]

/-- C8 witness: for the concrete input above, the label A is plotted with
the defaulted zero down channel, identically to the input that spells the
zeros out. -/
theorem C8_missing_channel_witness :
    pdosFind (okOr (plot_vasp_dos cfgNoAlign dE8b) dfltR) "A" =
      pdosFind (okOr (plot_vasp_dos cfgNoAlign dE8) dfltR) "A" ∧
    pdosFind (okOr (plot_vasp_dos cfgNoAlign dE8) dfltR) "A" = some ([1, 2], [0, 0]) :=
  ⟨(C8_missing_channel cfgNoAlign dE8 [0, 1] "A" "_down"
      (okOr (plot_vasp_dos cfgNoAlign dE8) dfltR)
      (okOr (plot_vasp_dos cfgNoAlign dE8b) dfltR)
      rfl (Or.inr rfl) rfl rfl (by decide) rfl).1, by decide⟩
